import Mathlib

/-!
Verification of the MIRTK VolumetricMapping surface-mapper core
(`SurfaceMapper.cc`, `SymmetricLinearSurfaceMapper.cc`).

Doubles are modelled by `ℚ` (the assembly only adds and multiplies),
VTK data arrays by a tuple/component-indexed function, the VTK mesh by
its point count plus cell lists, and the fatal `exit(1)` paths of
`Initialize` by `Except String`.  Helper accessors that live in headers
outside the reviewed sources (`IsFixedPoint`, `FreePointIndex`,
`BoundaryPoints`, the edge table) are modelled from the spec and marked
as such.
-/

namespace VolumetricMapping

/-- A VTK-style data array: named, with a tuple count, a component count and
the stored components (`data tuple component`). -/
structure DataArray where
  name : String
  numTuples : Nat
  numComponents : Nat
  data : Nat → Nat → ℚ

/-- A VTK-style point set: points `0 .. numPoints-1`, polygonal cells
(each a vertex list), line and vertex cells, cell attribute arrays, and the
point-data scalars/tcoords slots used by `SurfaceMapper`. -/
structure Mesh where
  numPoints : Nat
  polys : List (List Nat)
  lines : List (List Nat)
  verts : List (List Nat)
  cellArrays : List DataArray
  scalars : Option DataArray
  tcoords : Option DataArray

/-! ## Point partition (`SurfaceMapper::Initialize`, lines 171-186)

The loop classifies each point id in order, appending it to `_FixedPoints`
or `_FreePoints` (`InsertNextId` returns the position at which the id was
appended) and recording the signed compact index in `_PointIndex`. -/

/-- State of the partition loop: `_FixedPoints`, `_FreePoints`, `_PointIndex`.
`_PointIndex` is preallocated in the source and written at position `ptId`;
since the loop visits `ptId = 0,1,...` in order this is the same as
appending. -/
structure PartitionState where
  fixedPoints : List Nat
  freePoints : List Nat
  pointIndex : List Int

/-- One iteration of the partition loop for point `ptId`. -/
def partitionStep (isF : Nat → Bool) (s : PartitionState) (ptId : Nat) : PartitionState :=
  if isF ptId then
    { s with fixedPoints := s.fixedPoints ++ [ptId],
             pointIndex := s.pointIndex ++ [-((s.fixedPoints.length : Int) + 1)] }
  else
    { s with freePoints := s.freePoints ++ [ptId],
             pointIndex := s.pointIndex ++ [(s.freePoints.length : Int)] }

/-- The partition loop over all `P` surface points. -/
def buildPartition (isF : Nat → Bool) (P : Nat) : PartitionState :=
  (List.range P).foldl (partitionStep isF) ⟨[], [], []⟩

/-- The signed compact index the loop stores for point `p`:
`-(k+1)` for the `k`-th fixed point, `r` for the `r`-th free point. -/
def signedIdx (isF : Nat → Bool) (p : Nat) : Int :=
  if isF p then -((((List.range p).filter isF).length : Int) + 1)
  else (((List.range p).filter (fun q => !isF q)).length : Int)

/-- Closed form of the partition loop. -/
theorem buildPartition_eq (isF : Nat → Bool) (P : Nat) :
    buildPartition isF P =
      { fixedPoints := (List.range P).filter isF,
        freePoints := (List.range P).filter (fun q => !isF q),
        pointIndex := (List.range P).map (signedIdx isF) } := by
  induction P with
  | zero => rfl
  | succ P ih =>
      unfold buildPartition at ih ⊢
      rw [List.range_succ, List.foldl_append, ih]
      by_cases h : isF P <;>
        simp [partitionStep, signedIdx, h, List.filter_append, List.map_append]

theorem length_filter_add_length_filter_not (p : Nat → Bool) (l : List Nat) :
    (l.filter p).length + (l.filter (fun a => !p a)).length = l.length := by
  induction l with
  | nil => simp
  | cons a l ih =>
      by_cases h : p a <;> simp [List.filter_cons, h] <;> omega

/-- The `k`-th element of `filter p (range P)`, where `k` counts the
earlier elements of `range P` satisfying `p`, is `q` itself. -/
theorem filter_range_getElem (p : Nat → Bool) (P q : Nat) (hq : q < P)
    (hpq : p q = true) :
    ((List.range P).filter p)[((List.range q).filter p).length]? = some q := by
  induction P with
  | zero => omega
  | succ P ih =>
      rw [List.range_succ, List.filter_append]
      rcases Nat.lt_or_ge q P with h | h
      · have hih := ih h
        have hlt : ((List.range q).filter p).length <
            ((List.range P).filter p).length := by
          by_contra hcon
          rw [List.getElem?_eq_none (by omega)] at hih
          cases hih
        rw [List.getElem?_append, if_pos hlt]
        exact hih
      · have hq' : q = P := by omega
        subst hq'
        rw [List.getElem?_append_right (Nat.le_refl _)]
        simp [hpq]

/-- C1: after the partition loop of `Initialize()` over `P` points, every
point id lands in exactly one of `_FixedPoints`/`_FreePoints`; the signed
compact index is `-(k+1)` for the `k`-th fixed point and `r` for the `r`-th
free point; the lists are duplicate-free, their lengths sum to `P`, and
decoding the signed index of any point re-derives its global id. -/
theorem partition_bijection (isF : Nat → Bool) (P : Nat) :
    (buildPartition isF P).pointIndex.length = P ∧
    (buildPartition isF P).fixedPoints.length
      + (buildPartition isF P).freePoints.length = P ∧
    (buildPartition isF P).fixedPoints.Nodup ∧
    (buildPartition isF P).freePoints.Nodup ∧
    (∀ p ∈ (buildPartition isF P).fixedPoints, p < P ∧ isF p = true) ∧
    (∀ p ∈ (buildPartition isF P).freePoints, p < P ∧ isF p = false) ∧
    (∀ p, p < P →
      ((p ∈ (buildPartition isF P).fixedPoints
          ∧ p ∉ (buildPartition isF P).freePoints) ∨
       (p ∉ (buildPartition isF P).fixedPoints
          ∧ p ∈ (buildPartition isF P).freePoints))) ∧
    (∀ p, p < P → ∀ k, (buildPartition isF P).pointIndex[p]? = some k →
      (k < 0 ↔ isF p = true) ∧
      (k < 0 → (buildPartition isF P).fixedPoints[(-k - 1).toNat]? = some p) ∧
      (0 ≤ k → (buildPartition isF P).freePoints[k.toNat]? = some p)) := by
  rw [buildPartition_eq]
  refine ⟨by simp, ?_, ?_, ?_, ?_, ?_, ?_, ?_⟩
  · simpa using length_filter_add_length_filter_not isF (List.range P)
  · exact (List.nodup_range P).filter _
  · exact (List.nodup_range P).filter _
  · intro p hp
    simp only [List.mem_filter, List.mem_range] at hp
    exact ⟨hp.1, hp.2⟩
  · intro p hp
    simp only [List.mem_filter, List.mem_range, Bool.not_eq_true'] at hp
    exact ⟨hp.1, hp.2⟩
  · intro p hp
    by_cases h : isF p
    · exact Or.inl (by simp [List.mem_filter, List.mem_range, hp, h])
    · exact Or.inr (by simp [List.mem_filter, List.mem_range, hp, h])
  · intro p hp k hk
    simp only [List.getElem?_map, List.getElem?_range hp, Option.map_some'] at hk
    rw [signedIdx] at hk
    by_cases h : isF p
    · rw [if_pos h] at hk
      injection hk with hk
      subst hk
      refine ⟨by constructor <;> intro <;> first | exact h | omega, ?_, ?_⟩
      · intro _
        have : (-(-((((List.range p).filter isF).length : Int) + 1)) - 1).toNat
            = ((List.range p).filter isF).length := by omega
        rw [this]
        exact filter_range_getElem isF P p hp h
      · intro hc; omega
    · rw [if_neg h] at hk
      injection hk with hk
      subst hk
      refine ⟨⟨fun hc => absurd hc (by omega), fun hc => by simp_all⟩, ?_, ?_⟩
      · intro hc; omega
      · intro _
        have : ((((List.range p).filter (fun q => !isF q)).length : Int)).toNat
            = ((List.range p).filter (fun q => !isF q)).length := by omega
        rw [this]
        exact filter_range_getElem _ P p hp (by simp [h])

/-- Witness for C1 at `P = 4` with even ids fixed: point `3` is free with
compact index `1`, and decoding re-derives id `3`. -/
theorem partition_bijection_witness :
    (buildPartition (fun p => decide (p % 2 = 0)) 4).freePoints[(1 : Int).toNat]?
      = some 3 :=
  ((partition_bijection (fun p => decide (p % 2 = 0)) 4).2.2.2.2.2.2.2 3
    (by decide) 1 (by decide)).2.2 (by decide)

/-! ## Linear system assembly (`SymmetricLinearSurfaceMapper::Solve`, lines 88-129)

The single edge traversal.  `idx` is `FreePointIndex` (modelled from the
spec: the signed compact index lookup `_PointIndex->GetId`), `weight` the
pluggable `Weight(i,j)` policy, `value` is `GetValue` (modelled from the
spec: component `l` of `_Values` at a point).  The `consulted` field is
ghost instrumentation recording each evaluation of `w_ij = Weight(i, j)`
(line 104 of the source). -/

/-- State of the assembly loop: the triplet list `w`, the diagonal
accumulator `w_ii`, the right-hand side `b`, and the ghost record of
`Weight` evaluations. -/
structure AsmState where
  w : List (Nat × Nat × ℚ)
  wii : Nat → ℚ
  b : Nat → Nat → ℚ
  consulted : List (Nat × Nat)

/-- Ghost step: `w_ij = Weight(i, j)` was evaluated for this edge. -/
def consult (s : AsmState) (e : Nat × Nat) : AsmState :=
  { s with consulted := s.consulted ++ [e] }

/-- The `if (r >= 0 && c >= 0) ... else if (r >= 0) ... else if (c >= 0) ...`
chain: both-free edges push the symmetric off-diagonal pair, one-free edges
fold the fixed endpoint's value into the right-hand side rows `l = 0..m-1`. -/
def applyContrib (idx : Nat → Int) (weight value : Nat → Nat → ℚ) (m : Nat)
    (e : Nat × Nat) (s : AsmState) : AsmState :=
  if 0 ≤ idx e.1 ∧ 0 ≤ idx e.2 then
    { s with w := s.w ++ [((idx e.1).toNat, (idx e.2).toNat, -(weight e.1 e.2)),
                          ((idx e.2).toNat, (idx e.1).toNat, -(weight e.1 e.2))] }
  else if 0 ≤ idx e.1 then
    { s with b := fun r l => if r = (idx e.1).toNat ∧ l < m then
                    s.b r l + weight e.1 e.2 * value e.2 l else s.b r l }
  else if 0 ≤ idx e.2 then
    { s with b := fun r l => if r = (idx e.2).toNat ∧ l < m then
                    s.b r l + weight e.1 e.2 * value e.1 l else s.b r l }
  else s

/-- The `if (r >= 0) w_ii[r] += w_ij; if (c >= 0) w_ii[c] += w_ij;` pair. -/
def applyWii (idx : Nat → Int) (weight : Nat → Nat → ℚ) (e : Nat × Nat)
    (s : AsmState) : AsmState :=
  let s1 := if 0 ≤ idx e.1 then
    { s with wii := fun q => if q = (idx e.1).toNat then s.wii q + weight e.1 e.2
                             else s.wii q } else s
  if 0 ≤ idx e.2 then
    { s1 with wii := fun q => if q = (idx e.2).toNat then s1.wii q + weight e.1 e.2
                              else s1.wii q } else s1

/-- One iteration of the edge traversal: skip unless `r >= 0 || c >= 0`. -/
def edgeStep (idx : Nat → Int) (weight value : Nat → Nat → ℚ) (m : Nat)
    (s : AsmState) (e : Nat × Nat) : AsmState :=
  if 0 ≤ idx e.1 ∨ 0 ≤ idx e.2 then
    applyWii idx weight e (applyContrib idx weight value m e (consult s e))
  else s

/-- The whole assembly: fold the edge traversal over the edge list, then
append the diagonal triplets `(r, r, w_ii[r])` for `r = 0..n-1`. -/
def assembleTriplets (idx : Nat → Int) (weight value : Nat → Nat → ℚ)
    (m : Nat) (edges : List (Nat × Nat)) (n : Nat) : AsmState :=
  let s := edges.foldl (edgeStep idx weight value m) ⟨[], fun _ => 0, fun _ _ => 0, []⟩
  { s with w := s.w ++ (List.range n).map (fun r => (r, r, s.wii r)) }

/-- `A.setFromTriplets`: duplicate `(row, col)` pairs accumulate by
summation, so entry `(r, c)` is the sum of all matching triplet values. -/
def matEntry (w : List (Nat × Nat × ℚ)) (r c : Nat) : ℚ :=
  (w.map (fun t => if t.1 = r ∧ t.2.1 = c then t.2.2 else 0)).sum

/-- Sum of `Weight(i, j)` over the mesh edges incident to point `i`
(an edge contributes `Weight(i, j)` where `j` is its other endpoint). -/
def incidentWeightSum (edges : List (Nat × Nat)) (weight : Nat → Nat → ℚ)
    (i : Nat) : ℚ :=
  ((edges.map (fun e => if e.1 = i ∨ e.2 = i
      then weight i (if e.1 = i then e.2 else e.1) else 0)).sum)

theorem matEntry_append (w1 w2 : List (Nat × Nat × ℚ)) (r c : Nat) :
    matEntry (w1 ++ w2) r c = matEntry w1 r c + matEntry w2 r c := by
  simp [matEntry, List.map_append, List.sum_append]

theorem applyContrib_wii (idx weight value m e s) :
    (applyContrib idx weight value m e s).wii = s.wii := by
  unfold applyContrib
  split <;> try rfl
  split <;> try rfl
  split <;> rfl

theorem applyContrib_consulted (idx weight value m e s) :
    (applyContrib idx weight value m e s).consulted = s.consulted := by
  unfold applyContrib
  split <;> try rfl
  split <;> try rfl
  split <;> rfl

theorem applyWii_w (idx weight e s) :
    (applyWii idx weight e s).w = s.w := by
  unfold applyWii
  split <;> split <;> rfl

theorem applyWii_b (idx weight e s) :
    (applyWii idx weight e s).b = s.b := by
  unfold applyWii
  split <;> split <;> rfl

theorem applyWii_consulted (idx weight e s) :
    (applyWii idx weight e s).consulted = s.consulted := by
  unfold applyWii
  split <;> split <;> rfl

/-- Per-edge contribution to the off-diagonal triplet sum at `(r, c)`. -/
def offContrib (idx : Nat → Int) (weight : Nat → Nat → ℚ) (e : Nat × Nat)
    (r c : Nat) : ℚ :=
  if 0 ≤ idx e.1 ∧ 0 ≤ idx e.2 then
    (if (idx e.1).toNat = r ∧ (idx e.2).toNat = c then -(weight e.1 e.2) else 0)
      + (if (idx e.2).toNat = r ∧ (idx e.1).toNat = c then -(weight e.1 e.2) else 0)
  else 0

theorem matEntry_edgeStep (idx : Nat → Int) (weight value : Nat → Nat → ℚ)
    (m : Nat) (s : AsmState) (e : Nat × Nat) (r c : Nat) :
    matEntry (edgeStep idx weight value m s e).w r c
      = matEntry s.w r c + offContrib idx weight e r c := by
  unfold edgeStep offContrib
  by_cases h12 : 0 ≤ idx e.1 ∧ 0 ≤ idx e.2
  · rw [if_pos (Or.inl h12.1), applyWii_w, applyContrib, if_pos h12, if_pos h12]
    simp only [consult]
    rw [matEntry_append]
    simp only [matEntry, List.map_cons, List.map_nil, List.sum_cons, List.sum_nil]
    split_ifs <;> ring
  · rw [if_neg h12]
    by_cases h1 : 0 ≤ idx e.1
    · rw [if_pos (Or.inl h1), applyWii_w, applyContrib, if_neg h12, if_pos h1]
      simp [consult]
    · by_cases h2 : 0 ≤ idx e.2
      · rw [if_pos (Or.inr h2), applyWii_w, applyContrib, if_neg h12, if_neg h1,
          if_pos h2]
        simp [consult]
      · rw [if_neg (by tauto)]
        simp

/-- Per-edge contribution to the diagonal accumulator `w_ii[q]`. -/
def wiiContrib (idx : Nat → Int) (weight : Nat → Nat → ℚ) (e : Nat × Nat)
    (q : Nat) : ℚ :=
  (if 0 ≤ idx e.1 ∧ q = (idx e.1).toNat then weight e.1 e.2 else 0)
    + (if 0 ≤ idx e.2 ∧ q = (idx e.2).toNat then weight e.1 e.2 else 0)

theorem wii_edgeStep (idx : Nat → Int) (weight value : Nat → Nat → ℚ)
    (m : Nat) (s : AsmState) (e : Nat × Nat) (q : Nat) :
    (edgeStep idx weight value m s e).wii q
      = s.wii q + wiiContrib idx weight e q := by
  unfold edgeStep wiiContrib
  by_cases h1 : 0 ≤ idx e.1 <;> by_cases h2 : 0 ≤ idx e.2
  · rw [if_pos (Or.inl h1)]
    unfold applyWii
    rw [if_pos h1, if_pos h2]
    simp only [applyContrib_wii, consult]
    try dsimp only
    split_ifs <;> (try (exfalso; tauto)) <;> ring
  · rw [if_pos (Or.inl h1)]
    unfold applyWii
    rw [if_pos h1, if_neg h2]
    simp only [applyContrib_wii, consult]
    try dsimp only
    split_ifs <;> (try (exfalso; tauto)) <;> ring
  · rw [if_pos (Or.inr h2)]
    unfold applyWii
    rw [if_neg h1, if_pos h2]
    simp only [applyContrib_wii, consult]
    try dsimp only
    split_ifs <;> (try (exfalso; tauto)) <;> ring
  · rw [if_neg (by tauto)]
    have hc1 : ¬ (0 ≤ idx e.1 ∧ q = (idx e.1).toNat) := fun hc => h1 hc.1
    have hc2 : ¬ (0 ≤ idx e.2 ∧ q = (idx e.2).toNat) := fun hc => h2 hc.1
    rw [if_neg hc1, if_neg hc2]
    ring

theorem matEntry_fold (idx : Nat → Int) (weight value : Nat → Nat → ℚ)
    (m : Nat) (edges : List (Nat × Nat)) (s : AsmState) (r c : Nat) :
    matEntry ((edges.foldl (edgeStep idx weight value m) s).w) r c
      = matEntry s.w r c
        + ((edges.map (fun e => offContrib idx weight e r c)).sum) := by
  induction edges generalizing s with
  | nil => simp
  | cons e es ih =>
      simp only [List.foldl_cons, List.map_cons, List.sum_cons]
      rw [ih, matEntry_edgeStep]
      ring

theorem wii_fold (idx : Nat → Int) (weight value : Nat → Nat → ℚ)
    (m : Nat) (edges : List (Nat × Nat)) (s : AsmState) (q : Nat) :
    ((edges.foldl (edgeStep idx weight value m) s).wii) q
      = s.wii q + ((edges.map (fun e => wiiContrib idx weight e q)).sum) := by
  induction edges generalizing s with
  | nil => simp
  | cons e es ih =>
      simp only [List.foldl_cons, List.map_cons, List.sum_cons]
      rw [ih, wii_edgeStep]
      ring

/-- The diagonal triplets contribute `w_ii[r]` exactly at `(r, r)`, `r < n`. -/
theorem matEntry_diag (f : Nat → ℚ) (n r c : Nat) :
    matEntry ((List.range n).map (fun k => (k, k, f k))) r c
      = if r = c ∧ r < n then f r else 0 := by
  induction n with
  | zero => simp [matEntry]
  | succ n ih =>
      rw [List.range_succ, List.map_append, matEntry_append, ih]
      simp only [List.map_cons, List.map_nil, matEntry]
      by_cases hrc : r = c
      · subst hrc
        by_cases hn : r < n
        · have : ¬ n = r := by omega
          simp [hn, this, Nat.lt_succ_of_lt hn]
        · by_cases hn' : n = r
          · subst hn'
            simp [hn, Nat.lt_succ_self]
          · have : ¬ r < n + 1 := by omega
            simp [hn, hn', this]
      · simp only [hrc, false_and, if_false]
        have : ¬ (n = r ∧ n = c) := by rintro ⟨rfl, rfl⟩; exact hrc rfl
        simp [this]

theorem offContrib_symm (idx : Nat → Int) (weight : Nat → Nat → ℚ)
    (e : Nat × Nat) (r c : Nat) :
    offContrib idx weight e r c = offContrib idx weight e c r := by
  unfold offContrib
  split_ifs <;> (try (exfalso; tauto)) <;> ring

/-- C2: every system assembled by `Solve()` is symmetric — `A[r,c] = A[c,r]`
for all compact indices — and each both-free edge writes the off-diagonal
pair `(r,c,-w)` and `(c,r,-w)` with the same weight `w = Weight(i,j)`. -/
theorem solve_matrix_symmetric (idx : Nat → Int) (weight value : Nat → Nat → ℚ)
    (m : Nat) (edges : List (Nat × Nat)) (n : Nat) :
    (∀ r c, matEntry (assembleTriplets idx weight value m edges n).w r c
          = matEntry (assembleTriplets idx weight value m edges n).w c r) ∧
    (∀ s : AsmState, ∀ e : Nat × Nat, 0 ≤ idx e.1 → 0 ≤ idx e.2 →
      (edgeStep idx weight value m s e).w
        = s.w ++ [((idx e.1).toNat, (idx e.2).toNat, -(weight e.1 e.2)),
                  ((idx e.2).toNat, (idx e.1).toNat, -(weight e.1 e.2))]) := by
  constructor
  · intro r c
    simp only [assembleTriplets]
    rw [matEntry_append, matEntry_append, matEntry_fold, matEntry_fold,
      matEntry_diag, matEntry_diag]
    have hmap : (fun e => offContrib idx weight e r c)
        = (fun e => offContrib idx weight e c r) :=
      funext fun e => offContrib_symm idx weight e r c
    rw [hmap]
    by_cases hrc : r = c
    · subst hrc
      rfl
    · rw [if_neg (fun hc => hrc hc.1), if_neg (fun hc => hrc hc.1.symm)]
      simp [matEntry]
  · intro s e h1 h2
    unfold edgeStep
    rw [if_pos (Or.inl h1), applyWii_w]
    unfold applyContrib
    rw [if_pos ⟨h1, h2⟩]
    rfl

/-- Example index map for witnesses: point `0` fixed, point `p ≥ 1` free
with compact index `p - 1`. -/
def exIdx (p : Nat) : Int := (p : Int) - 1

/-- Example symmetric weight policy for witnesses. -/
def exW (a b : Nat) : ℚ := (a : ℚ) + (b : ℚ) + 1

/-- Example value array for witnesses. -/
def exV (p l : Nat) : ℚ := (p : ℚ) + (l : ℚ)

/-- Empty assembly state for witnesses. -/
def exS : AsmState := ⟨[], fun _ => 0, fun _ _ => 0, []⟩

/-- Witness for C2: a both-free edge `(1,2)` with indices `0,1` appends the
symmetric off-diagonal pair. -/
theorem solve_matrix_symmetric_witness :
    (edgeStep exIdx exW exV 2 exS (1, 2)).w
      = exS.w ++ [(0, 1, -(exW 1 2)), (1, 0, -(exW 1 2))] :=
  (solve_matrix_symmetric exIdx exW exV 2 [] 0).2 exS (1, 2)
    (by decide) (by decide)

theorem offContrib_diag_zero (idx : Nat → Int) (weight : Nat → Nat → ℚ)
    (i r : Nat) (e : Nat × Nat) (hne : e.1 ≠ e.2)
    (hinj : ∀ a b : Nat, 0 ≤ idx a → 0 ≤ idx b → idx a = idx b → a = b)
    (hfree : 0 ≤ idx i) (hr : (idx i).toNat = r) :
    offContrib idx weight e r r = 0 := by
  unfold offContrib
  by_cases h : 0 ≤ idx e.1 ∧ 0 ≤ idx e.2
  · rw [if_pos h]
    have hA : ¬((idx e.1).toNat = r ∧ (idx e.2).toNat = r) := by
      rintro ⟨ha, hb⟩
      have h1 : idx e.1 = idx i := by omega
      have h2 : idx e.2 = idx i := by omega
      exact hne ((hinj e.1 i h.1 hfree h1).trans (hinj e.2 i h.2 hfree h2).symm)
    rw [if_neg hA, if_neg (fun hc => hA ⟨hc.2, hc.1⟩)]
    ring
  · rw [if_neg h]

theorem wiiContrib_eq_incident (idx : Nat → Int) (weight : Nat → Nat → ℚ)
    (i r : Nat) (e : Nat × Nat) (hne : e.1 ≠ e.2)
    (hinj : ∀ a b : Nat, 0 ≤ idx a → 0 ≤ idx b → idx a = idx b → a = b)
    (hsym : ∀ a b : Nat, weight a b = weight b a)
    (hfree : 0 ≤ idx i) (hr : (idx i).toNat = r) :
    wiiContrib idx weight e r
      = if e.1 = i ∨ e.2 = i then weight i (if e.1 = i then e.2 else e.1)
        else 0 := by
  unfold wiiContrib
  by_cases h1 : e.1 = i
  · have hc1 : 0 ≤ idx e.1 ∧ r = (idx e.1).toNat := ⟨h1 ▸ hfree, by rw [h1, hr]⟩
    have hc2 : ¬(0 ≤ idx e.2 ∧ r = (idx e.2).toNat) := by
      rintro ⟨hn2, he2⟩
      have heq : idx e.2 = idx i := by omega
      exact hne (h1.trans (hinj e.2 i hn2 hfree heq).symm)
    rw [if_pos hc1, if_neg hc2, if_pos (Or.inl h1), if_pos h1, h1]
    ring
  · by_cases h2 : e.2 = i
    · have hc1 : ¬(0 ≤ idx e.1 ∧ r = (idx e.1).toNat) := by
        rintro ⟨hn1, he1⟩
        have heq : idx e.1 = idx i := by omega
        exact hne ((hinj e.1 i hn1 hfree heq).trans h2.symm)
      have hc2 : 0 ≤ idx e.2 ∧ r = (idx e.2).toNat := ⟨h2 ▸ hfree, by rw [h2, hr]⟩
      rw [if_pos hc2, if_neg hc1, if_pos (Or.inr h2), if_neg h1, h2, hsym i e.1]
      ring
    · have hc1 : ¬(0 ≤ idx e.1 ∧ r = (idx e.1).toNat) := by
        rintro ⟨hn1, he1⟩
        have heq : idx e.1 = idx i := by omega
        exact h1 (hinj e.1 i hn1 hfree heq)
      have hc2 : ¬(0 ≤ idx e.2 ∧ r = (idx e.2).toNat) := by
        rintro ⟨hn2, he2⟩
        have heq : idx e.2 = idx i := by omega
        exact h2 (hinj e.2 i hn2 hfree heq)
      rw [if_neg hc1, if_neg hc2, if_neg (fun hc => hc.elim h1 h2)]
      ring

/-- C3: the diagonal entry `A[r,r]` of the assembled matrix is the sum of
`Weight(i,j)` over all mesh edges incident to the free point `i` with
compact index `r`, whether the neighbour is free or fixed. -/
theorem solve_diagonal_row_sum (idx : Nat → Int) (weight value : Nat → Nat → ℚ)
    (m n : Nat) (edges : List (Nat × Nat)) (i r : Nat)
    (hself : ∀ e ∈ edges, e.1 ≠ e.2)
    (hinj : ∀ a b : Nat, 0 ≤ idx a → 0 ≤ idx b → idx a = idx b → a = b)
    (hsym : ∀ a b : Nat, weight a b = weight b a)
    (hfree : 0 ≤ idx i) (hr : (idx i).toNat = r) (hn : r < n) :
    matEntry (assembleTriplets idx weight value m edges n).w r r
      = incidentWeightSum edges weight i := by
  simp only [assembleTriplets]
  rw [matEntry_append, matEntry_fold, matEntry_diag, if_pos ⟨rfl, hn⟩, wii_fold]
  have hoff : ((edges.map (fun e => offContrib idx weight e r r)).sum) = 0 := by
    apply List.sum_eq_zero
    intro x hx
    obtain ⟨e, he, rfl⟩ := List.mem_map.mp hx
    exact offContrib_diag_zero idx weight i r e (hself e he) hinj hfree hr
  have hmap : edges.map (fun e => wiiContrib idx weight e r)
      = edges.map (fun e =>
          if e.1 = i ∨ e.2 = i then weight i (if e.1 = i then e.2 else e.1)
          else 0) := by
    apply List.map_congr_left
    intro e he
    exact wiiContrib_eq_incident idx weight i r e (hself e he) hinj hsym hfree hr
  rw [hoff, hmap]
  simp [matEntry, incidentWeightSum]

/-- Witness for C3 on the path `0 - 1 - 2` with point `0` fixed:
`A[0,0]` equals the sum of the weights of the two edges at point `1`. -/
theorem solve_diagonal_row_sum_witness :
    matEntry (assembleTriplets exIdx exW exV 1 [(0, 1), (1, 2)] 2).w 0 0
      = incidentWeightSum [(0, 1), (1, 2)] exW 1 :=
  solve_diagonal_row_sum exIdx exW exV 1 2 [(0, 1), (1, 2)] 1 0 (by decide)
    (by intro a b ha hb h; simp only [exIdx] at ha hb h; omega)
    (by intro a b; simp only [exW]; ring)
    (by decide) (by decide) (by decide)

/-- C4: the edge traversal of `Solve()` skips an edge — leaving the whole
assembly state unchanged, so `Weight(i,j)` is not consulted and nothing is
contributed to `A` or `b` — precisely when both endpoints are fixed; every
edge with at least one free endpoint has its weight evaluated. -/
theorem solve_edge_skip (idx : Nat → Int) (weight value : Nat → Nat → ℚ)
    (m : Nat) (s : AsmState) (e : Nat × Nat) :
    (idx e.1 < 0 → idx e.2 < 0 → edgeStep idx weight value m s e = s) ∧
    (0 ≤ idx e.1 ∨ 0 ≤ idx e.2 →
      (edgeStep idx weight value m s e).consulted = s.consulted ++ [e]) := by
  constructor
  · intro h1 h2
    unfold edgeStep
    rw [if_neg (by omega)]
  · intro h
    unfold edgeStep
    rw [if_pos h, applyWii_consulted, applyContrib_consulted]
    rfl

/-- Witness for C4: the edge `(0,0)` between two fixed endpoints leaves the
initial assembly state untouched. -/
theorem solve_edge_skip_witness :
    edgeStep exIdx exW exV 1 exS (0, 0) = exS :=
  (solve_edge_skip exIdx exW exV 1 exS (0, 0)).1 (by decide) (by decide)

/-- C5: an edge with exactly one free endpoint adds
`Weight(i,j) * value(fixed, l)` to row `free` of `b` for every component
`l < m`, changes no other entry of `b`, and appends no matrix triplet. -/
theorem solve_one_free_rhs (idx : Nat → Int) (weight value : Nat → Nat → ℚ)
    (m : Nat) (s : AsmState) (e : Nat × Nat) :
    (0 ≤ idx e.1 → idx e.2 < 0 →
      (edgeStep idx weight value m s e).w = s.w ∧
      (∀ l, l < m → (edgeStep idx weight value m s e).b (idx e.1).toNat l
          = s.b (idx e.1).toNat l + weight e.1 e.2 * value e.2 l) ∧
      (∀ p l, p ≠ (idx e.1).toNat ∨ m ≤ l →
          (edgeStep idx weight value m s e).b p l = s.b p l)) ∧
    (idx e.1 < 0 → 0 ≤ idx e.2 →
      (edgeStep idx weight value m s e).w = s.w ∧
      (∀ l, l < m → (edgeStep idx weight value m s e).b (idx e.2).toNat l
          = s.b (idx e.2).toNat l + weight e.1 e.2 * value e.1 l) ∧
      (∀ p l, p ≠ (idx e.2).toNat ∨ m ≤ l →
          (edgeStep idx weight value m s e).b p l = s.b p l)) := by
  constructor
  · intro h1 h2
    have h12 : ¬(0 ≤ idx e.1 ∧ 0 ≤ idx e.2) := fun hc => absurd hc.2 (by omega)
    unfold edgeStep
    rw [if_pos (Or.inl h1)]
    refine ⟨?_, ?_, ?_⟩
    · rw [applyWii_w]
      unfold applyContrib
      rw [if_neg h12, if_pos h1]
      rfl
    · intro l hl
      rw [applyWii_b]
      unfold applyContrib
      rw [if_neg h12, if_pos h1]
      dsimp only [consult]
      rw [if_pos ⟨rfl, hl⟩]
    · intro p l hpl
      rw [applyWii_b]
      unfold applyContrib
      rw [if_neg h12, if_pos h1]
      dsimp only [consult]
      rw [if_neg (by rcases hpl with h | h
                     · exact fun hc => h hc.1
                     · exact fun hc => absurd hc.2 (by omega))]
  · intro h1 h2
    have h12 : ¬(0 ≤ idx e.1 ∧ 0 ≤ idx e.2) := fun hc => absurd hc.1 (by omega)
    have h1' : ¬(0 ≤ idx e.1) := by omega
    unfold edgeStep
    rw [if_pos (Or.inr h2)]
    refine ⟨?_, ?_, ?_⟩
    · rw [applyWii_w]
      unfold applyContrib
      rw [if_neg h12, if_neg h1', if_pos h2]
      rfl
    · intro l hl
      rw [applyWii_b]
      unfold applyContrib
      rw [if_neg h12, if_neg h1', if_pos h2]
      dsimp only [consult]
      rw [if_pos ⟨rfl, hl⟩]
    · intro p l hpl
      rw [applyWii_b]
      unfold applyContrib
      rw [if_neg h12, if_neg h1', if_pos h2]
      dsimp only [consult]
      rw [if_neg (by rcases hpl with h | h
                     · exact fun hc => h hc.1
                     · exact fun hc => absurd hc.2 (by omega))]

/-- Witness for C5: the edge `(1,0)` (point `1` free with index `0`,
point `0` fixed) folds `Weight(1,0) * value(0,0)` into `b[0,0]`. -/
theorem solve_one_free_rhs_witness :
    (edgeStep exIdx exW exV 1 exS (1, 0)).b 0 0
      = exS.b 0 0 + exW 1 0 * exV 0 0 :=
  ((solve_one_free_rhs exIdx exW exV 1 exS (1, 0)).1
    (by decide) (by decide)).2.1 0 (by decide)

/-! ## Boundary mask (`SurfaceMapper::BoundaryMask`, lines 106-119) -/

/-- Edges of one polygonal cell: consecutive vertex pairs, closing back to
the first vertex. Modelled from the spec: part of the external mesh
library's boundary-edge detection (`BoundaryPoints` of PointSetUtils). -/
def cellEdges (cell : List Nat) : List (Nat × Nat) :=
  cell.zip (cell.rotate 1)

/-- Modelled from the spec: the number of polygons using the undirected
edge `{a, b}`; a boundary edge is used by exactly one polygon. -/
def edgeUseCount (polys : List (List Nat)) (a b : Nat) : Nat :=
  (polys.map (fun c => (cellEdges c).countP
    (fun f => (f.1 = a ∧ f.2 = b) ∨ (f.1 = b ∧ f.2 = a)))).sum

/-- Modelled from the spec: point `p` is on the mesh boundary when it is
incident to at least one boundary edge. -/
def isBoundaryPt (surf : Mesh) (p : Nat) : Bool :=
  (List.range surf.numPoints).any (fun q => edgeUseCount surf.polys p q == 1)

/-- Modelled from the spec: `BoundaryPoints` — the ids of the points
incident to at least one boundary edge. -/
def boundaryPoints (surf : Mesh) : List Nat :=
  (List.range surf.numPoints).filter (isBoundaryPt surf)

/-- `mask->SetComponent(ptId, 0, 1.0)` for one boundary point. -/
def setOneAt (mask : DataArray) (p : Nat) : DataArray :=
  { mask with data := fun t c => if t = p ∧ c = 0 then 1 else mask.data t c }

/-- `SurfaceMapper::BoundaryMask`: a one-component array over all surface
points named "FixedPoints", filled with `0`, then set to `1` at every
boundary point. -/
def BoundaryMask (surf : Mesh) : DataArray :=
  (boundaryPoints surf).foldl setOneAt
    ⟨"FixedPoints", surf.numPoints, 1, fun _ _ => 0⟩

/-! ## Mapper lifecycle (`SurfaceMapper.cc`) -/

/-- The output mapping (`PiecewiseLinearMap`): the surface as domain plus
the per-point values (`SurfaceMapper::Finalize`). -/
structure OutputMap where
  domain : Mesh
  values : DataArray

/-- The mapper's persistent state: the caller inputs `_Mesh`, `_Input`,
`_Mask`, `_Fixed`, and the derived `_Surface`, `_Values`, the partition
lists and `_Output`. -/
structure MapperState where
  mesh : Option Mesh
  input : Option DataArray
  mask : Option DataArray
  fixed : Option DataArray
  surface : Option Mesh
  values : Option DataArray
  fixedPoints : List Nat
  freePoints : List Nat
  pointIndex : List Int
  output : Option OutputMap

/-- `_Values->DeepCopy(_Input)`: an independent array with the same name
and contents (aliasing is not observable in the pure model, so the copy
is value-identical). -/
def deepCopy (a : DataArray) : DataArray :=
  ⟨a.name, a.numTuples, a.numComponents, a.data⟩

/-- `_Surface`: shallow copy of `_Mesh` with the line and vertex cells
removed and the cell/point attribute data cleared (lines 145-151). -/
def stripCopy (mh : Mesh) : Mesh :=
  { mh with lines := [], verts := [], cellArrays := [], scalars := none,
            tcoords := none }

/-- Whether an optional input array is present with a tuple count different
from the point count (the `Initialize` precondition checks). -/
def tuplesMismatch (o : Option DataArray) (P : Nat) : Bool :=
  match o with
  | none => false
  | some a => a.numTuples != P

/-- Modelled from the spec: `IsFixedPoint` — a point is fixed when its
entry in the fixed mask is nonzero. -/
def isFixedPt (fixedArr : DataArray) (p : Nat) : Bool :=
  decide (fixedArr.data p 0 ≠ 0)

/-- The state a successful `Initialize` produces: previous output
discarded, `_Surface` the stripped copy carrying the copied values as
tcoords and `_Mask` as scalars, `_Fixed` resolved from the scalars or the
boundary mask (`InitializeMask`), and the point partition built over the
surface points. -/
def initSuccessState (st : MapperState) (mh : Mesh) (inp : DataArray) :
    MapperState :=
  let vals := deepCopy inp
  let surf : Mesh := { stripCopy mh with tcoords := some vals, scalars := st.mask }
  let fixedArr := match surf.scalars with
                  | some sc => sc
                  | none => BoundaryMask surf
  let part := buildPartition (isFixedPt fixedArr) surf.numPoints
  { st with
    output := none
    surface := some surf
    values := some vals
    fixed := some fixedArr
    fixedPoints := part.fixedPoints
    freePoints := part.freePoints
    pointIndex := part.pointIndex }

/-- `SurfaceMapper::Initialize` with `InitializeValues`/`InitializeMask`
inlined at their call sites; each fatal `exit(1)` becomes `Except.error`
carrying its diagnostic. (`_Output = nullptr` at entry is observable only
on success, since the fatal paths terminate the process; `Remesh()` is the
default no-op and `BuildLinks` changes no topology.) -/
def mapperInit (st : MapperState) : Except String MapperState :=
  match st.mesh with
  | none => .error "Initialize: Missing input surface mesh"
  | some mh =>
    if mh.polys.length = 0 then
      .error "Initialize: Input point set must be a surface mesh"
    else if tuplesMismatch st.input mh.numPoints then
      .error "Initialize: Invalid input map values array"
    else if tuplesMismatch st.fixed mh.numPoints then
      .error "Initialize: Invalid input mask"
    else
      match st.input with
      | none => .error "InitializeValues: Missing boundary conditions"
      | some inp => .ok (initSuccessState st mh inp)

/-- `SurfaceMapper::Finalize`: package `(surface, values)` as the output
mapping unless the solve already produced one. -/
def finalize (st : MapperState) : MapperState :=
  match st.output with
  | some _ => st
  | none =>
    match st.surface, st.values with
    | some surf, some vals => { st with output := some ⟨surf, vals⟩ }
    | _, _ => st

/-- `SurfaceMapper::Run`: `Initialize`, then the subclass `Solve`, then
`Finalize`; a fatal `Initialize` terminates before any solve. -/
def runMapper (solveFn : MapperState → MapperState) (st : MapperState) :
    Except String MapperState :=
  (mapperInit st).map (fun s => finalize (solveFn s))

/-! ## Solve write-back (`SymmetricLinearSurfaceMapper::Solve`, lines 141-170) -/

/-- The write-back loop of `Solve` from row `r` on: for each free point
`i = FreePointId(r)`, `SetValue(i, l, x(r, l))` for every `l < m`. -/
def writeBackFrom (m : Nat) (x : Nat → Nat → ℚ) :
    Nat → List Nat → (Nat → Nat → ℚ) → Nat → Nat → ℚ
  | _, [], v => v
  | r, i :: rest, v =>
      writeBackFrom m x (r + 1) rest
        (fun p l => if p = i ∧ l < m then x r l else v p l)

/-- The whole write-back, starting at row `0` over the free-point list. -/
def solveWriteBack (freePts : List Nat) (m : Nat) (x : Nat → Nat → ℚ)
    (vals : Nat → Nat → ℚ) : Nat → Nat → ℚ :=
  writeBackFrom m x 0 freePts vals

/-- The effect of `SymmetricLinearSurfaceMapper::Solve` on the value data:
assemble `A` and `b`, take the warm-start guess from the current values at
free points, hand the system to the external iterative `solver`
(quantified: any solver output), and write the solution back at free-point
ids only. -/
def symmetricSolveValues
    (solver : (Nat → Nat → ℚ) → (Nat → Nat → ℚ) → (Nat → Nat → ℚ) → Nat → Nat → ℚ)
    (edges : List (Nat × Nat)) (idx : Nat → Int) (freePts : List Nat)
    (weight value : Nat → Nat → ℚ) (n m : Nat) : Nat → Nat → ℚ :=
  let asm := assembleTriplets idx weight value m edges n
  let x := solver (matEntry asm.w) asm.b (fun r l => value (freePts.getD r 0) l)
  solveWriteBack freePts m x value

/-- Undirected edge normalisation (smaller endpoint first). -/
def normEdge (e : Nat × Nat) : Nat × Nat :=
  if e.1 ≤ e.2 then e else (e.2, e.1)

/-- Modelled from the spec: the edge table of the surface — the unique
undirected edges of its polygons, each visited once by the traversal. -/
def meshEdges (surf : Mesh) : List (Nat × Nat) :=
  ((surf.polys.map cellEdges).flatten.map normEdge).dedup

/-- `SymmetricLinearSurfaceMapper::Solve` at the mapper-state level: only
the `_Values` data changes (through `SetValue` in the write-back loop);
every other field is untouched. -/
def symmetricSolveState (weight : Nat → Nat → ℚ)
    (solver : (Nat → Nat → ℚ) → (Nat → Nat → ℚ) → (Nat → Nat → ℚ) → Nat → Nat → ℚ)
    (st : MapperState) : MapperState :=
  match st.surface, st.values with
  | some surf, some vals =>
      let newData := symmetricSolveValues solver (meshEdges surf)
        (fun p => st.pointIndex.getD p 0) st.freePoints weight vals.data
        st.freePoints.length vals.numComponents
      { st with values := some { vals with data := newData } }
  | _, _ => st

/-! ## Lemmas about the boundary mask and the lifecycle -/

theorem setOneAt_foldl_data (L : List Nat) (base : DataArray) (t c : Nat) :
    (L.foldl setOneAt base).data t c
      = if t ∈ L ∧ c = 0 then 1 else base.data t c := by
  induction L generalizing base with
  | nil => simp
  | cons p rest ih =>
      rw [List.foldl_cons, ih]
      by_cases hc : c = 0
      · subst hc
        by_cases ht : t ∈ rest
        · simp [ht, setOneAt]
        · by_cases htp : t = p <;> simp [ht, htp, setOneAt]
      · simp [hc, setOneAt]

theorem setOneAt_foldl_meta (L : List Nat) (base : DataArray) :
    (L.foldl setOneAt base).numTuples = base.numTuples ∧
    (L.foldl setOneAt base).numComponents = base.numComponents := by
  induction L generalizing base with
  | nil => exact ⟨rfl, rfl⟩
  | cons p rest ih =>
      rw [List.foldl_cons]
      exact ih (setOneAt base p)

theorem BoundaryMask_numTuples (surf : Mesh) :
    (BoundaryMask surf).numTuples = surf.numPoints :=
  (setOneAt_foldl_meta (boundaryPoints surf) _).1

theorem BoundaryMask_numComponents (surf : Mesh) :
    (BoundaryMask surf).numComponents = 1 :=
  (setOneAt_foldl_meta (boundaryPoints surf) _).2

theorem BoundaryMask_data (surf : Mesh) (t : Nat) :
    (BoundaryMask surf).data t 0
      = if t ∈ boundaryPoints surf then 1 else 0 := by
  unfold BoundaryMask
  rw [setOneAt_foldl_data]
  by_cases ht : t ∈ boundaryPoints surf <;> simp [ht]

theorem mapperInit_ok_inv (st s : MapperState) (h : mapperInit st = .ok s) :
    ∃ mh inp, st.mesh = some mh ∧ ¬ mh.polys.length = 0 ∧
      tuplesMismatch st.input mh.numPoints = false ∧
      tuplesMismatch st.fixed mh.numPoints = false ∧
      st.input = some inp ∧ s = initSuccessState st mh inp := by
  rcases hm : st.mesh with _ | mh
  · simp only [mapperInit, hm] at h
    exact Except.noConfusion h
  · simp only [mapperInit, hm] at h
    by_cases h1 : mh.polys.length = 0
    · rw [if_pos h1] at h
      exact Except.noConfusion h
    · rw [if_neg h1] at h
      by_cases h2 : tuplesMismatch st.input mh.numPoints
      · rw [if_pos h2] at h
        exact Except.noConfusion h
      · rw [if_neg h2] at h
        by_cases h3 : tuplesMismatch st.fixed mh.numPoints
        · rw [if_pos h3] at h
          exact Except.noConfusion h
        · rw [if_neg h3] at h
          rcases hin : st.input with _ | inp
          · simp only [hin] at h
            exact Except.noConfusion h
          · simp only [hin] at h
            injection h with h
            rw [hin] at h2
            exact ⟨mh, inp, rfl, h1, by simpa using h2, by simpa using h3,
              rfl, h.symm⟩

theorem initSuccessState_frame (st : MapperState) (mh : Mesh) (inp : DataArray) :
    (initSuccessState st mh inp).mesh = st.mesh ∧
    (initSuccessState st mh inp).input = st.input ∧
    (initSuccessState st mh inp).mask = st.mask :=
  ⟨rfl, rfl, rfl⟩

theorem initSuccessState_congr (st st' : MapperState) (mh : Mesh)
    (inp : DataArray) (hmesh : st'.mesh = st.mesh)
    (hinput : st'.input = st.input) (hmask : st'.mask = st.mask) :
    initSuccessState st' mh inp = initSuccessState st mh inp := by
  cases st
  cases st'
  simp only [initSuccessState]
  simp_all

theorem initSuccessState_fixed_tuples (st : MapperState) (mh : Mesh)
    (inp : DataArray)
    (hmask : ∀ mk, st.mask = some mk → mk.numTuples = mh.numPoints) :
    ∃ f, (initSuccessState st mh inp).fixed = some f ∧
      f.numTuples = mh.numPoints := by
  refine ⟨_, rfl, ?_⟩
  rcases hm : st.mask with _ | mk
  · simp only [initSuccessState, hm]
    rw [BoundaryMask_numTuples]
    rfl
  · simp only [initSuccessState, hm]
    exact hmask mk hm

theorem symmetricSolveState_frame (weight : Nat → Nat → ℚ)
    (solver : (Nat → Nat → ℚ) → (Nat → Nat → ℚ) → (Nat → Nat → ℚ) → Nat → Nat → ℚ)
    (st : MapperState) :
    (symmetricSolveState weight solver st).mesh = st.mesh ∧
    (symmetricSolveState weight solver st).input = st.input ∧
    (symmetricSolveState weight solver st).mask = st.mask ∧
    (symmetricSolveState weight solver st).fixed = st.fixed ∧
    (symmetricSolveState weight solver st).surface = st.surface ∧
    (symmetricSolveState weight solver st).fixedPoints = st.fixedPoints ∧
    (symmetricSolveState weight solver st).freePoints = st.freePoints ∧
    (symmetricSolveState weight solver st).pointIndex = st.pointIndex ∧
    (symmetricSolveState weight solver st).output = st.output := by
  unfold symmetricSolveState
  cases hs : st.surface <;> cases hv : st.values <;> simp [hs, hv]

theorem finalize_frame (st : MapperState) :
    (finalize st).mesh = st.mesh ∧
    (finalize st).input = st.input ∧
    (finalize st).mask = st.mask ∧
    (finalize st).fixed = st.fixed ∧
    (finalize st).surface = st.surface ∧
    (finalize st).fixedPoints = st.fixedPoints ∧
    (finalize st).freePoints = st.freePoints ∧
    (finalize st).pointIndex = st.pointIndex ∧
    (finalize st).values = st.values := by
  unfold finalize
  cases ho : st.output <;> cases hs : st.surface <;> cases hv : st.values <;>
    simp [ho, hs, hv]

/-- C6: every fatal configuration error — null mesh, zero polygonal faces,
input value array with wrong tuple count, input mask with wrong tuple
count, missing input value array — is detected inside `Initialize()`,
which stops the run with a diagnostic naming the violated precondition
before any solve is attempted (the same error results for every possible
solve step) and produces no partial result. -/
theorem fatal_config_errors (st : MapperState)
    (solveFn : MapperState → MapperState) :
    (st.mesh = none →
      mapperInit st = .error "Initialize: Missing input surface mesh" ∧
      runMapper solveFn st = .error "Initialize: Missing input surface mesh") ∧
    (∀ mh, st.mesh = some mh → mh.polys.length = 0 →
      mapperInit st
        = .error "Initialize: Input point set must be a surface mesh" ∧
      runMapper solveFn st
        = .error "Initialize: Input point set must be a surface mesh") ∧
    (∀ mh a, st.mesh = some mh → mh.polys.length ≠ 0 → st.input = some a →
      a.numTuples ≠ mh.numPoints →
      mapperInit st = .error "Initialize: Invalid input map values array" ∧
      runMapper solveFn st
        = .error "Initialize: Invalid input map values array") ∧
    (∀ mh f, st.mesh = some mh → mh.polys.length ≠ 0 →
      tuplesMismatch st.input mh.numPoints = false → st.fixed = some f →
      f.numTuples ≠ mh.numPoints →
      mapperInit st = .error "Initialize: Invalid input mask" ∧
      runMapper solveFn st = .error "Initialize: Invalid input mask") ∧
    (∀ mh, st.mesh = some mh → mh.polys.length ≠ 0 →
      tuplesMismatch st.fixed mh.numPoints = false → st.input = none →
      mapperInit st = .error "InitializeValues: Missing boundary conditions" ∧
      runMapper solveFn st
        = .error "InitializeValues: Missing boundary conditions") := by
  refine ⟨?_, ?_, ?_, ?_, ?_⟩
  · intro hm
    have hi : mapperInit st
        = Except.error "Initialize: Missing input surface mesh" := by
      simp only [mapperInit, hm]
    exact ⟨hi, by unfold runMapper; rw [hi]; rfl⟩
  · intro mh hm hp
    have hi : mapperInit st
        = Except.error "Initialize: Input point set must be a surface mesh" := by
      simp only [mapperInit, hm]
      rw [if_pos hp]
    exact ⟨hi, by unfold runMapper; rw [hi]; rfl⟩
  · intro mh a hm hp hin hne
    have ht : tuplesMismatch st.input mh.numPoints = true := by
      rw [hin]
      simp [tuplesMismatch, hne]
    have hi : mapperInit st
        = Except.error "Initialize: Invalid input map values array" := by
      simp only [mapperInit, hm]
      rw [if_neg hp, if_pos ht]
    exact ⟨hi, by unfold runMapper; rw [hi]; rfl⟩
  · intro mh f hm hp h2 hf hne
    have ht : tuplesMismatch st.fixed mh.numPoints = true := by
      rw [hf]
      simp [tuplesMismatch, hne]
    have hi : mapperInit st = Except.error "Initialize: Invalid input mask" := by
      simp only [mapperInit, hm]
      rw [if_neg hp, if_neg (by rw [h2]; exact Bool.false_ne_true), if_pos ht]
    exact ⟨hi, by unfold runMapper; rw [hi]; rfl⟩
  · intro mh hm hp h3 hin
    have hi : mapperInit st
        = Except.error "InitializeValues: Missing boundary conditions" := by
      simp only [mapperInit, hm]
      rw [if_neg hp, if_neg (by rw [hin]; simp [tuplesMismatch]),
        if_neg (by rw [h3]; exact Bool.false_ne_true)]
      simp only [hin]
    exact ⟨hi, by unfold runMapper; rw [hi]; rfl⟩

/-- State with no inputs at all, for the C6 witness. -/
def exBadState : MapperState :=
  ⟨none, none, none, none, none, none, [], [], [], none⟩

/-- Witness for C6: a mapper with no mesh fails `Initialize`, and `Run`
with any solve step (here the identity) reports the same error. -/
theorem fatal_config_errors_witness :
    mapperInit exBadState = .error "Initialize: Missing input surface mesh" ∧
    runMapper id exBadState
      = .error "Initialize: Missing input surface mesh" :=
  (fatal_config_errors exBadState id).1 rfl

/-- C7: re-running an unmodified mapper is idempotent — if `Run()` produced
`st1`, running again from `st1` (same mesh, input and mask) reproduces
exactly `st1`, because `Initialize` discards the previous output and
re-derives the working state from the caller inputs alone. The mask
hypothesis is the configuration validity condition (a wrongly sized mask
makes the first run read out of bounds in the C++ source). -/
theorem run_twice_idempotent (weight : Nat → Nat → ℚ)
    (solver : (Nat → Nat → ℚ) → (Nat → Nat → ℚ) → (Nat → Nat → ℚ) → Nat → Nat → ℚ)
    (st st1 : MapperState)
    (hmask : ∀ mk mh, st.mask = some mk → st.mesh = some mh →
      mk.numTuples = mh.numPoints)
    (h : runMapper (symmetricSolveState weight solver) st = .ok st1) :
    runMapper (symmetricSolveState weight solver) st1 = .ok st1 := by
  unfold runMapper at h
  rcases hini : mapperInit st with e | s0
  · rw [hini] at h
    exact Except.noConfusion h
  · rw [hini] at h
    simp only [Except.map] at h
    injection h with h
    obtain ⟨mh, inp, hm, hp, h2, h3, hin, hs0⟩ := mapperInit_ok_inv st s0 hini
    have hsf := symmetricSolveState_frame weight solver s0
    have hff := finalize_frame (symmetricSolveState weight solver s0)
    have hisf := initSuccessState_frame st mh inp
    have hmesh1 : st1.mesh = some mh := by
      rw [← h, hff.1, hsf.1, hs0, hisf.1, hm]
    have hinput1 : st1.input = some inp := by
      rw [← h, hff.2.1, hsf.2.1, hs0, hisf.2.1, hin]
    have hmask1 : st1.mask = st.mask := by
      rw [← h, hff.2.2.1, hsf.2.2.1, hs0, hisf.2.2]
    have hfixed1 : st1.fixed = s0.fixed := by
      rw [← h, hff.2.2.2.1, hsf.2.2.2.1]
    obtain ⟨farr, hfeq, hft⟩ := initSuccessState_fixed_tuples st mh inp
      (fun mk hmk => hmask mk mh hmk hm)
    have hfixed1' : st1.fixed = some farr := by rw [hfixed1, hs0, hfeq]
    have hini1 : mapperInit st1 = .ok (initSuccessState st1 mh inp) := by
      simp only [mapperInit, hmesh1]
      rw [if_neg hp,
        if_neg (by rw [hinput1, ← hin, h2]; exact Bool.false_ne_true),
        if_neg (by rw [hfixed1']; simp [tuplesMismatch, hft])]
      simp only [hinput1]
    have hcongr : initSuccessState st1 mh inp = initSuccessState st mh inp :=
      initSuccessState_congr st st1 mh inp (by rw [hmesh1, hm])
        (by rw [hinput1, hin]) hmask1
    unfold runMapper
    rw [hini1, hcongr, ← hs0]
    simp only [Except.map]
    rw [h]

/-- Triangle mesh for the lifecycle witnesses: three points, one polygon,
every point on the boundary. -/
def exMesh : Mesh := ⟨3, [[0, 1, 2]], [], [], [], none, none⟩

/-- Input values for the lifecycle witnesses. -/
def exInput : DataArray := ⟨"map", 3, 1, fun pt _ => (pt : ℚ)⟩

/-- Freshly configured mapper for the lifecycle witnesses. -/
def exState : MapperState :=
  ⟨some exMesh, some exInput, none, none, none, none, [], [], [], none⟩

/-- A trivial iterative solver (returns the warm-start guess). -/
def exSolver : (Nat → Nat → ℚ) → (Nat → Nat → ℚ) → (Nat → Nat → ℚ) →
    Nat → Nat → ℚ := fun _ _ x0 => x0

/-- Result of the first run for the C7 witness. -/
def exRun1 : MapperState :=
  match runMapper (symmetricSolveState exW exSolver) exState with
  | .ok s => s
  | .error _ => exState

/-- Witness for C7: on the triangle mapper, the second `Run()` reproduces
the first run's state exactly. -/
theorem run_twice_idempotent_witness :
    runMapper (symmetricSolveState exW exSolver) exRun1 = .ok exRun1 :=
  run_twice_idempotent exW exSolver exState exRun1
    (fun mk mh hmk _ => by simp [exState] at hmk) rfl

/-- C8: `BoundaryMask()` has one entry per surface point, valued `1` at
every point incident to a boundary edge and `0` elsewhere; when the caller
supplies no mask, `Initialize` uses it as the fixed mask, so the fixed
points are exactly the mesh-boundary points. -/
theorem boundary_mask_default (st st' : MapperState) (mh : Mesh)
    (hmesh : st.mesh = some mh) (hmask : st.mask = none)
    (h : mapperInit st = .ok st') :
    ∃ surf, st'.surface = some surf ∧
      st'.fixed = some (BoundaryMask surf) ∧
      (BoundaryMask surf).numTuples = surf.numPoints ∧
      (BoundaryMask surf).numComponents = 1 ∧
      (∀ p, (BoundaryMask surf).data p 0
          = if p ∈ boundaryPoints surf then 1 else 0) ∧
      st'.fixedPoints = boundaryPoints surf := by
  obtain ⟨mh', inp, hm', hp, h2, h3, hin, hs⟩ := mapperInit_ok_inv st st' h
  have hmh : mh' = mh := by
    rw [hmesh] at hm'
    injection hm' with hm'
    exact hm'.symm
  subst hmh
  subst hs
  refine ⟨{ stripCopy mh' with tcoords := some (deepCopy inp), scalars := none },
    ?_, ?_, BoundaryMask_numTuples _, BoundaryMask_numComponents _,
    fun p => BoundaryMask_data _ p, ?_⟩
  · simp only [initSuccessState, hmask]
  · simp only [initSuccessState, hmask]
  · simp only [initSuccessState, hmask]
    rw [buildPartition_eq]
    show List.filter _ (List.range _) = boundaryPoints _
    unfold boundaryPoints
    apply List.filter_congr
    intro p hp'
    unfold isFixedPt
    rw [BoundaryMask_data]
    by_cases hb : p ∈ boundaryPoints
        { stripCopy mh' with tcoords := some (deepCopy inp), scalars := none }
    · have hbp := (List.mem_filter.mp hb).2
      rw [if_pos hb, hbp]
      decide
    · have hbp : isBoundaryPt
          { stripCopy mh' with tcoords := some (deepCopy inp), scalars := none }
          p = false := by
        cases hq : isBoundaryPt
            { stripCopy mh' with tcoords := some (deepCopy inp), scalars := none }
            p
        · rfl
        · exact absurd (List.mem_filter.mpr ⟨hp', hq⟩) hb
      rw [if_neg hb, hbp]
      decide

/-- Result of `Initialize` for the C8 witness. -/
def exInit8 : MapperState :=
  match mapperInit exState with
  | .ok s => s
  | .error _ => exState

/-- Witness for C8: on the triangle mapper with no mask supplied, the
fixed mask is the boundary mask and the fixed points are the boundary
points. -/
theorem boundary_mask_default_witness :
    ∃ surf, exInit8.surface = some surf ∧
      exInit8.fixed = some (BoundaryMask surf) ∧
      (BoundaryMask surf).numTuples = surf.numPoints ∧
      (BoundaryMask surf).numComponents = 1 ∧
      (∀ p, (BoundaryMask surf).data p 0
          = if p ∈ boundaryPoints surf then 1 else 0) ∧
      exInit8.fixedPoints = boundaryPoints surf :=
  boundary_mask_default exState exInit8 exMesh rfl rfl rfl

/-- C9: a run never mutates the caller's inputs — after `Run()` the mesh,
the input value array and the input mask are exactly what they were
before; `Initialize` works on a stripped working copy of the mesh and a
deep copy of the input values. -/
theorem run_preserves_caller_inputs (weight : Nat → Nat → ℚ)
    (solver : (Nat → Nat → ℚ) → (Nat → Nat → ℚ) → (Nat → Nat → ℚ) → Nat → Nat → ℚ)
    (st st' : MapperState)
    (h : runMapper (symmetricSolveState weight solver) st = .ok st') :
    st'.mesh = st.mesh ∧ st'.input = st.input ∧ st'.mask = st.mask := by
  unfold runMapper at h
  rcases hini : mapperInit st with e | s0
  · rw [hini] at h
    exact Except.noConfusion h
  · rw [hini] at h
    simp only [Except.map] at h
    injection h with h
    obtain ⟨mh, inp, hm, _, _, _, hin, hs0⟩ := mapperInit_ok_inv st s0 hini
    have hsf := symmetricSolveState_frame weight solver s0
    have hff := finalize_frame (symmetricSolveState weight solver s0)
    have hisf := initSuccessState_frame st mh inp
    refine ⟨?_, ?_, ?_⟩
    · rw [← h, hff.1, hsf.1, hs0, hisf.1]
    · rw [← h, hff.2.1, hsf.2.1, hs0, hisf.2.1]
    · rw [← h, hff.2.2.1, hsf.2.2.1, hs0, hisf.2.2]

/-- Result of the run for the C9 witness. -/
def exRun9 : MapperState :=
  match runMapper (symmetricSolveState exW exSolver) exState with
  | .ok s => s
  | .error _ => exState

/-- Witness for C9: the triangle run leaves mesh, input and mask fields
untouched. -/
theorem run_preserves_caller_inputs_witness :
    exRun9.mesh = exState.mesh ∧ exRun9.input = exState.input ∧
      exRun9.mask = exState.mask :=
  run_preserves_caller_inputs exW exSolver exState exRun9 rfl

theorem writeBackFrom_not_mem (m : Nat) (x : Nat → Nat → ℚ) (L : List Nat)
    (p : Nat) (hp : p ∉ L) :
    ∀ (r : Nat) (v : Nat → Nat → ℚ) (l : Nat),
      writeBackFrom m x r L v p l = v p l := by
  induction L with
  | nil =>
      intro r v l
      rfl
  | cons i rest ih =>
      intro r v l
      have hpi : p ≠ i := fun hc => hp (by rw [hc]; exact List.mem_cons_self i rest)
      have hpr : p ∉ rest := fun hc => hp (List.mem_cons_of_mem _ hc)
      rw [writeBackFrom, ih hpr]
      simp [hpi]

/-- C10: `Solve()` writes the working values only at free-point ids — for
any solver output, the value of every fixed point (for every component)
after the solve equals its value before, i.e. the boundary values set by
`Initialize` survive the solve verbatim. -/
theorem solve_preserves_fixed_values
    (solver : (Nat → Nat → ℚ) → (Nat → Nat → ℚ) → (Nat → Nat → ℚ) → Nat → Nat → ℚ)
    (edges : List (Nat × Nat)) (isF : Nat → Bool) (P : Nat) (idx : Nat → Int)
    (weight value : Nat → Nat → ℚ) (n m : Nat) (p : Nat) (hp : isF p = true)
    (l : Nat) :
    symmetricSolveValues solver edges idx (buildPartition isF P).freePoints
      weight value n m p l = value p l := by
  have hnm : p ∉ (buildPartition isF P).freePoints := by
    rw [buildPartition_eq]
    intro hc
    rw [List.mem_filter] at hc
    simp [hp] at hc
  simp only [symmetricSolveValues, solveWriteBack]
  exact writeBackFrom_not_mem m _ _ p hnm 0 _ l

/-- Witness for C10: fixed point `0` keeps its value through the solve. -/
theorem solve_preserves_fixed_values_witness :
    symmetricSolveValues exSolver [(0, 1)] exIdx
      (buildPartition (fun q => decide (q % 2 = 0)) 3).freePoints exW exV 1 1 0 0
      = exV 0 0 :=
  solve_preserves_fixed_values exSolver [(0, 1)] (fun q => decide (q % 2 = 0)) 3
    exIdx exW exV 1 1 0 (by decide) 0

end VolumetricMapping
